import Mathlib

/-!
Verification of the shell tab-completion core of the podman CLI
(cmd/podman/common/completion.go), via a shallow embedding in Lean.

Modelling conventions:
- Go strings are modelled as Lean `String`; byte-level operations of the
  Go code (indexing, slicing, prefix tests) are modelled on the character
  list `String.data`, which agrees with the byte-level behavior on the
  ASCII data this code handles.
- The external backend query (container/pod/image/volume/network/registry
  listing) is modelled as an `Except String` value passed in as a
  parameter: `.error e` is a failed query, `.ok records` a successful one.
  The status-filter arguments of the Go adapters only populate the filter
  request sent to that external query, so they are absorbed into the
  query-result parameter.
- Go code that can panic (out-of-range string slicing such as `ID[0:12]`,
  indexing `Names[0]` of an empty slice, calling `Error()` on a nil
  error) is modelled with `Option`: `none` is a panic, `some` a normal
  return.
- Cobra shell-completion directives are bit masks over `Nat`, with the
  numeric values of the cobra constants.
-/

namespace PodmanCompletion

/-! ## Go string primitives -/

/-- Model of Go `strings.HasPrefix(s, pre)`. -/
def goHasPref (s pre : String) : Bool :=
  pre.data.isPrefixOf s.data

/-- Model of the Go slice expression `s[len(key):]` (character-level). -/
def goDropStr (s key : String) : String :=
  ⟨s.data.drop key.data.length⟩

/-- Model of the Go slice expression `key[len(key)-1:]`: the last character
of `key` as a one-character string (empty input gives the empty string). -/
def goLastChar (key : String) : String :=
  ⟨key.data.drop (key.data.length - 1)⟩

/-- Model of Go `strings.TrimPrefix(s, pre)`. -/
def goTrimPref (s pre : String) : String :=
  if pre.data.isPrefixOf s.data then ⟨s.data.drop pre.data.length⟩ else s

/-- Fuel-driven worker for `goReplaceAll`. Each step consumes at least one
character of the remaining input when `old` is non-empty, so fuel equal to
the input length is enough; the fuel-exhausted branch is then unreachable. -/
def replaceAllFuel (old new : List Char) : Nat → List Char → List Char
  | 0, l => l
  | _ + 1, [] => []
  | fuel + 1, x :: xs =>
    if old.isPrefixOf (x :: xs) then
      new ++ replaceAllFuel old new fuel ((x :: xs).drop old.length)
    else
      x :: replaceAllFuel old new fuel xs

/-- Model of Go `strings.ReplaceAll(s, old, new)` for non-empty `old`
(the completion code only replaces the literal "only received"; Go treats
an empty `old` specially, which we map to the identity). -/
def goReplaceAll (s old new : String) : String :=
  if old.data.isEmpty then s
  else ⟨replaceAllFuel old.data new.data s.data.length s.data⟩

/-- Model of Go `strings.SplitN(s, sep, 2)[0]` for a one-character
separator: everything before the first occurrence of `c`. -/
def untilChar (c : Char) (l : List Char) : List Char :=
  l.takeWhile (fun x => x != c)

/-- Worker for `goSplit`: accumulates the current segment in reverse. -/
def goSplitAux (c : Char) : List Char → List Char → List (List Char)
  | [], acc => [acc.reverse]
  | x :: xs, acc =>
    if x = c then acc.reverse :: goSplitAux c xs []
    else goSplitAux c xs (x :: acc)

/-- Model of Go `strings.Split(s, sep)` for a one-character separator. -/
def goSplit (c : Char) (l : List Char) : List (List Char) :=
  goSplitAux c l []

/-- Model of Go `strings.Join(elems, sep)` for a one-character separator. -/
def goJoin (c : Char) : List (List Char) → List Char
  | [] => []
  | [x] => x
  | x :: xs => x ++ c :: goJoin c xs

/-! ## Model of `fmt.Sscanf(s, "%d arg(s), received %d", &need, &got)` -/

/-- Value of a digit run, most significant first. -/
def digitsToNat (ds : List Char) : Nat :=
  ds.foldl (fun n c => 10 * n + (c.toNat - 48)) 0

/-- The `%d` verb: skip leading spaces, read an optional sign and a
non-empty digit run, return the value and the unconsumed rest. -/
def scanInt (l : List Char) : Option (Int × List Char) :=
  let l := l.dropWhile (fun c => c = ' ')
  match l with
  | '-' :: rest =>
    let ds := rest.takeWhile Char.isDigit
    if ds.isEmpty then none
    else some (-(digitsToNat ds : Int), rest.dropWhile Char.isDigit)
  | '+' :: rest =>
    let ds := rest.takeWhile Char.isDigit
    if ds.isEmpty then none
    else some ((digitsToNat ds : Int), rest.dropWhile Char.isDigit)
  | _ =>
    let ds := l.takeWhile Char.isDigit
    if ds.isEmpty then none
    else some ((digitsToNat ds : Int), l.dropWhile Char.isDigit)

/-- Literal matching of a scan format: a space in the format consumes any
number (including zero) of spaces of the input, any other character must
match exactly. Returns the unconsumed input on success. -/
def matchLit : List Char → List Char → Option (List Char)
  | [], l => some l
  | c :: cs, l =>
    if c = ' ' then matchLit cs (l.dropWhile (fun x => x = ' '))
    else
      match l with
      | [] => none
      | x :: xs => if x = c then matchLit cs xs else none

/-- Model of `fmt.Sscanf(s, "%d arg(s), received %d", &need, &got)`:
`some (need, got)` exactly when both verbs and the literal text scan
(trailing input is ignored, as Sscanf does). -/
def scanNeedGot (s : String) : Option (Int × Int) := do
  let (need, rest) ← scanInt s.data
  let rest ← matchLit " arg(s), received ".data rest
  let (got, _) ← scanInt rest
  pure (need, got)

/-! ## Cobra shell-completion directives (numeric values of the cobra
constants) -/

def ShellCompDirectiveError : Nat := 1
def ShellCompDirectiveNoSpace : Nat := 2
def ShellCompDirectiveNoFileComp : Nat := 4
def ShellCompDirectiveDefault : Nat := 0

/-! ## Data model -/

/-- The `completeType` enumeration of completion.go. -/
inductive CompleteType where
  | default
  | ids
  | names
deriving DecidableEq

/-- A container record as consumed by `getContainers` (fields `ID`,
`Names`, `PodName`). -/
structure Container where
  id : String
  names : List String
  podName : String
deriving DecidableEq

/-- A pod record as consumed by `getPods` (fields `Id`, `Name`). -/
structure Pod where
  id : String
  name : String
deriving DecidableEq

/-- An image record as consumed by `getImages` (fields `ID`, `RepoTags`). -/
structure Image where
  id : String
  repoTags : List String
deriving DecidableEq

/-! ## Entity query adapters -/

/-- The body of the `getContainers` loop for one container record.
`none` models a panic: the slice `c.ID[0:12]` when the matched ID is
shorter than 12, or `c.Names[0]` when the name list is empty. -/
def getContainersOne (toComplete : String) (cType : CompleteType) (c : Container) :
    Option (List String) := do
  let idSuggs ←
    if ((toComplete.data.length > 1 ∧ cType = .default) ∨ cType = .ids) ∧
        goHasPref c.id toComplete then
      if c.id.data.length < 12 then none
      else some [String.mk (c.id.data.take 12) ++ "\t" ++ c.podName]
    else some []
  let nameSuggs ←
    if cType ≠ .ids then
      match c.names with
      | [] => none
      | n :: _ => some (if goHasPref n toComplete then [n ++ "\t" ++ c.podName] else [])
    else some []
  some (idSuggs ++ nameSuggs)

/-- Model of `getContainers`: on a failed backend query return
`(nil, ShellCompDirectiveError)`, otherwise collect the per-record
suggestions in order with `ShellCompDirectiveNoFileComp`. -/
def getContainers (queryResult : Except String (List Container)) (toComplete : String)
    (cType : CompleteType) : Option (List String × Nat) :=
  match queryResult with
  | .error _ => some ([], ShellCompDirectiveError)
  | .ok containers =>
    (containers.mapM (getContainersOne toComplete cType)).map
      (fun ls => (ls.flatten, ShellCompDirectiveNoFileComp))

/-- The body of the `getPods` loop for one pod record. `none` models the
panic of `pod.Id[0:12]` on a matched ID shorter than 12. -/
def getPodsOne (toComplete : String) (cType : CompleteType) (p : Pod) :
    Option (List String) := do
  let idSuggs ←
    if ((toComplete.data.length > 1 ∧ cType = .default) ∨ cType = .ids) ∧
        goHasPref p.id toComplete then
      if p.id.data.length < 12 then none
      else some [String.mk (p.id.data.take 12)]
    else some []
  let nameSuggs :=
    if cType ≠ .ids ∧ goHasPref p.name toComplete then [p.name] else []
  some (idSuggs ++ nameSuggs)

/-- Model of `getPods`. -/
def getPods (queryResult : Except String (List Pod)) (toComplete : String)
    (cType : CompleteType) : Option (List String × Nat) :=
  match queryResult with
  | .error _ => some ([], ShellCompDirectiveError)
  | .ok pods =>
    (pods.mapM (getPodsOne toComplete cType)).map
      (fun ls => (ls.flatten, ShellCompDirectiveNoFileComp))

/-- Model of `getVolumes`: name-prefix filter over the queried volume
names. -/
def getVolumes (queryResult : Except String (List String)) (toComplete : String) :
    List String × Nat :=
  match queryResult with
  | .error _ => ([], ShellCompDirectiveError)
  | .ok volumes =>
    (volumes.filter (fun v => goHasPref v toComplete), ShellCompDirectiveNoFileComp)

/-- Model of `getNetworks`: name-prefix filter over the queried network
names. -/
def getNetworks (queryResult : Except String (List String)) (toComplete : String) :
    List String × Nat :=
  match queryResult with
  | .error _ => ([], ShellCompDirectiveError)
  | .ok networks =>
    (networks.filter (fun n => goHasPref n toComplete), ShellCompDirectiveNoFileComp)

/-- Model of `getRegistries`: the queried registry list is returned as-is
(note: `getRegistries` does not receive the partial token at all). -/
def getRegistries (queryResult : Except String (List String)) : List String × Nat :=
  match queryResult with
  | .error _ => ([], ShellCompDirectiveError)
  | .ok regs => (regs, ShellCompDirectiveNoFileComp)

/-- The body of the `image.RepoTags` loop of `getImages` for one repo tag
string: with an empty partial token only the full reference, otherwise for
every suffix of the slash-separated segment list the suffix-joined string
and its tag-or-digest-stripped form, each offered when the partial token
is a prefix of it. -/
def goRepoSuggestions (toComplete repo : String) : List String :=
  if toComplete = "" then
    if goHasPref repo toComplete then [repo] else []
  else
    let paths := goSplit '/' repo.data
    (List.range paths.length).flatMap (fun i =>
      let suggestionWithTag := goJoin '/' (paths.drop i)
      let withTag :=
        if toComplete.data.isPrefixOf suggestionWithTag then [String.mk suggestionWithTag]
        else []
      let suggestionWithoutTag := untilChar '@' (untilChar ':' suggestionWithTag)
      let withoutTag :=
        if toComplete.data.isPrefixOf suggestionWithoutTag then [String.mk suggestionWithoutTag]
        else []
      withTag ++ withoutTag)

/-- The body of the `getImages` loop for one image record. `none` models
the panic of `image.ID[0:12]` on a matched ID shorter than 12. -/
def getImagesOne (toComplete : String) (image : Image) : Option (List String) := do
  let idSuggs ←
    if toComplete.data.length > 1 ∧ goHasPref image.id toComplete then
      if image.id.data.length < 12 then none
      else some [String.mk (image.id.data.take 12)]
    else some []
  some (idSuggs ++ image.repoTags.flatMap (goRepoSuggestions toComplete))

/-- Model of `getImages`. -/
def getImages (queryResult : Except String (List Image)) (toComplete : String) :
    Option (List String × Nat) :=
  match queryResult with
  | .error _ => some ([], ShellCompDirectiveError)
  | .ok images =>
    (images.mapM (getImagesOne toComplete)).map
      (fun ls => (ls.flatten, ShellCompDirectiveNoFileComp))

/-! ## Arity gate -/

/-- Model of `validCurrentCmdLine`. The command argument validator
`cmd.Args` is passed as `argsFn` (`none` when the command has no `Args`
function; the validator itself returns `none` on success and the error
message on failure). The result `none` models the panic of the Go code:
when `fmt.Sscanf` succeeds and `need < got`, line 226 calls `err.Error()`
on a nil `err`. -/
def validCurrentCmdLine (argsFn : Option (List String → Option String))
    (args : List String) (toComplete : String) : Option Bool :=
  match argsFn with
  | none => some true
  | some f =>
    match f (args ++ [toComplete]) with
    | none => some true
    | some errMsg =>
      let cleanErr := goTrimPref errMsg "requires at least "
      let cleanErr := goReplaceAll cleanErr "only received" "received"
      let cleanErr := goTrimPref cleanErr "accepts "
      match scanNeedGot cleanErr with
      | some (need, got) => if need ≥ got then some true else none
      | none => some false

/-- Model of the external cobra validator `MinimumNArgs(2)`: succeeds on
two or more arguments, otherwise fails with the documented message
"requires at least 2 arg(s), only received N". -/
def minimumNArgs2 (args : List String) : Option String :=
  if args.length ≥ 2 then none
  else some ("requires at least 2 arg(s), only received " ++ Nat.repr args.length)

/-- Model of the external cobra validator `ExactArgs(2)`: succeeds on
exactly two arguments, otherwise fails with the documented message
"accepts 2 arg(s), received N". -/
def exactArgs2 (args : List String) : Option String :=
  if args.length = 2 then none
  else some ("accepts 2 arg(s), received " ++ Nat.repr args.length)

/-! ## Key-value completion combinator -/

/-- A nested completer of a key-value grammar (the function type of
`keyValueCompletion` values; `Option` models a possible panic inside the
nested completer). -/
def KVComp : Type :=
  String → Option (List String × Nat)

/-- Whether the last character of `key` is `=` or `:` (the `latKey` test
of `completeKeyValues`). -/
def keyEndsInSep (key : String) : Bool :=
  goLastChar key == "=" || goLastChar key == ":"

/-- Model of `prefixSlice`: prepend `pre` to every entry. -/
def prefixSlice (pre : String) (slice : List String) : List String :=
  slice.map (fun s => pre ++ s)

/-- The loop of `completeKeyValues` over the grammar entries, carrying the
accumulated literal-key suggestions and the current directive. The Go map
iteration order is modelled by the association-list order. -/
def completeKeyValuesLoop (toComplete : String) :
    List (String × Option KVComp) → List String → Nat → Option (List String × Nat)
  | [], suggestions, directive => some (suggestions, directive)
  | (key, getComps) :: rest, suggestions, directive =>
    if goHasPref toComplete key then
      match getComps with
      | some f => (f (goDropStr toComplete key)).map (fun r => (prefixSlice key r.1, r.2))
      | none => some ([], ShellCompDirectiveNoFileComp)
    else if goHasPref key toComplete then
      completeKeyValuesLoop toComplete rest (suggestions ++ [key])
        (if keyEndsInSep key then ShellCompDirectiveNoSpace ||| ShellCompDirectiveNoFileComp
         else directive)
    else
      completeKeyValuesLoop toComplete rest suggestions directive

/-- Model of `completeKeyValues`. -/
def completeKeyValues (toComplete : String) (k : List (String × Option KVComp)) :
    Option (List String × Nat) :=
  completeKeyValuesLoop toComplete k [] ShellCompDirectiveNoFileComp

/-! ## Completion entry points used by the claims -/

/-- Model of `AutocompleteRegistries`: arity gate, then the registries
adapter. -/
def AutocompleteRegistries (argsFn : Option (List String → Option String))
    (args : List String) (toComplete : String)
    (queryResult : Except String (List String)) : Option (List String × Nat) :=
  match validCurrentCmdLine argsFn args toComplete with
  | none => none
  | some false => some ([], ShellCompDirectiveNoFileComp)
  | some true => some (getRegistries queryResult)

/-- Model of `AutocompleteNamespace`: the namespace key-value grammar,
with the container query result for the `container:` nested completer. -/
def AutocompleteNamespace (queryC : Except String (List Container))
    (toComplete : String) : Option (List String × Nat) :=
  completeKeyValues toComplete
    [("container:", some (fun s => getContainers queryC s .default)),
     ("ns:", some (fun _ => some ([], ShellCompDirectiveDefault))),
     ("host", none),
     ("private", none)]

/-- Model of `AutocompleteUserNamespace`: the namespace completion with
the literals "auto" and "keep-id" appended to the suggestions and the
directive passed through. -/
def AutocompleteUserNamespace (queryC : Except String (List Container))
    (toComplete : String) : Option (List String × Nat) :=
  (AutocompleteNamespace queryC toComplete).map
    (fun r => (r.1 ++ ["auto", "keep-id"], r.2))

/-! ## Spec-side definitions (for the refinement claims; these follow the
wording of the specification, not the source) -/

/-- All non-empty suffixes of a list, longest first: every way of
dropping a leading run of segments. -/
def specSuffixes {α : Type} : List α → List (List α)
  | [] => []
  | x :: xs => (x :: xs) :: specSuffixes xs

/-- The spec-side strip of a trailing tag or digest component: everything
before the first `:` or `@`. -/
def specStripTag (l : List Char) : List Char :=
  l.takeWhile (fun c => c != ':' && c != '@')

/-- The spec-side candidate set for one repo tag string and a non-empty
partial token: for every suffix of the slash-split segment list, the
suffix-joined string and its stripped form, each kept exactly when the
partial token is a prefix of it. -/
def specRepoSuggestions (toComplete repo : String) : List String :=
  (specSuffixes (goSplit '/' repo.data)).flatMap (fun segs =>
    let joined := goJoin '/' segs
    (if toComplete.data.isPrefixOf joined then [String.mk joined] else []) ++
    (if toComplete.data.isPrefixOf (specStripTag joined) then [String.mk (specStripTag joined)]
     else []))

/-! ## Helper lemmas -/

/-- The empty list is a prefix of every list. -/
theorem nilIsPrefixOf {α : Type} [BEq α] (l : List α) : ([] : List α).isPrefixOf l = true := by
  cases l <;> rfl

/-- Every string has the empty string as a prefix. -/
theorem goHasPref_emptyTok (s : String) : goHasPref s "" = true :=
  nilIsPrefixOf s.data

/-- The empty string has no non-empty string as a prefix. -/
theorem goHasPref_empty_of_ne (key : String) (h : key ≠ "") : goHasPref "" key = false := by
  obtain ⟨kd⟩ := key
  cases kd with
  | nil => exact absurd rfl h
  | cons c cs => rfl

/-- Dropping the length of the first summand of an appended string
recovers the second summand. -/
theorem goDropStr_append (key s : String) : goDropStr (key ++ s) key = s := by
  unfold goDropStr
  rw [String.data_append, List.drop_left]

/-- `mapM` into `Option` fails as soon as one element fails. -/
theorem mapM_eq_none_of_mem {α β : Type} {f : α → Option β} {l : List α} {x : α}
    (hx : x ∈ l) (hfx : f x = none) : l.mapM f = none := by
  induction l with
  | nil => cases hx
  | cons a t ih =>
    rw [List.mapM_cons]
    rcases List.mem_cons.mp hx with h | h
    · subst h; rw [hfx]; rfl
    · rw [ih h]; cases f a <;> rfl

/-- `mapM` only depends on the values of the function on the list. -/
theorem mapM_congr {α β : Type} {f g : α → Option β} {l : List α}
    (h : ∀ a ∈ l, f a = g a) : l.mapM f = l.mapM g := by
  induction l with
  | nil => rfl
  | cons a t ih =>
    rw [List.mapM_cons, List.mapM_cons, h a (List.mem_cons_self a t),
      ih (fun x hx => h x (List.mem_cons.mpr (Or.inr hx)))]

/-- `mapM` of an everywhere-successful function is `map`. -/
theorem mapM_some {α β : Type} (g : α → β) (l : List α) :
    l.mapM (fun a => some (g a)) = some (l.map g) := by
  induction l with
  | nil => rfl
  | cons a t ih => rw [List.mapM_cons, ih]; rfl

/-! ## Claims -/

/-- **C1** (code_bug evidence). The arity gate contract says the gate
returns false when a `(need, got)` pair is recovered with `need < got`.
The code instead calls `Error()` on a nil error in that branch (line 226)
and panics. At the concrete failing input — an `ExactArgs(2)` validator,
two arguments already present and a partial token, giving the message
"accepts 2 arg(s), received 3", so `need = 2 < got = 3` — the model
evaluates to `none` (panic), not `some false`. -/
theorem validCurrentCmdLine_need_lt_got_panics :
    validCurrentCmdLine (some exactArgs2) ["a", "b"] "c" = none := by decide

/-- **C6** (counterexample). For a validator requiring at least two
arguments, with two arguments already on the line the gate does NOT
return false: appending the partial token gives three arguments, the
`MinimumNArgs(2)` validator accepts them, and the gate returns true. -/
theorem minArgs2_two_args_counterexample :
    validCurrentCmdLine (some minimumNArgs2) ["a", "b"] "c" = some true ∧
    validCurrentCmdLine (some minimumNArgs2) ["a", "b"] "c" ≠ some false := by decide

/-- **C6** (amended). For a command whose validator requires at least two
arguments: with zero args so far and any partial token the gate returns
true (need = 2 ≥ got = 1), and with two args so far and any partial token
it also returns true, because the validator accepts the three-token line. -/
theorem validCmdLine_minArgs2_amended (args : List String) (t : String) :
    (args.length = 0 → validCurrentCmdLine (some minimumNArgs2) args t = some true) ∧
    (args.length = 2 → validCurrentCmdLine (some minimumNArgs2) args t = some true) := by
  constructor
  · intro h0
    have harg : args = [] := List.length_eq_zero.mp h0
    subst harg
    show validCurrentCmdLine (some minimumNArgs2) [] t = some true
    unfold validCurrentCmdLine minimumNArgs2
    simp only [List.nil_append, List.length_cons, List.length_nil]
    rw [if_neg (by omega)]
    rfl
  · intro h2
    obtain ⟨a, b, rfl⟩ := List.length_eq_two.mp h2
    unfold validCurrentCmdLine minimumNArgs2
    simp only [List.cons_append, List.nil_append, List.length_cons, List.length_nil]
    rw [if_pos (by omega)]

/-- **C6** witness: the amended gate claim at concrete inputs. -/
theorem validCmdLine_minArgs2_amended_witness :
    validCurrentCmdLine (some minimumNArgs2) [] "c" = some true ∧
    validCurrentCmdLine (some minimumNArgs2) ["x", "y"] "z" = some true :=
  ⟨(validCmdLine_minArgs2_amended [] "c").1 rfl,
   (validCmdLine_minArgs2_amended ["x", "y"] "z").2 rfl⟩

/-- **C7** (counterexample). Registry completion does not filter by name
prefix: with partial token "x" and a successful query returning
"docker.io", the adapter returns "docker.io" although "x" is not a prefix
of it. -/
theorem registries_unfiltered_counterexample :
    AutocompleteRegistries none [] "x" (.ok ["docker.io"])
        = some (["docker.io"], ShellCompDirectiveNoFileComp) ∧
    goHasPref "docker.io" "x" = false := by decide

/-- **C7** (amended). For every partial token, when the arity gate passes
and the query succeeds, the registries adapter returns ALL queried
registry names unchanged and unannotated with `NoFileCompletion`: the
partial token is ignored (`getRegistries` does not even receive it), so
no prefix filtering happens. -/
theorem autocompleteRegistries_unfiltered (argsFn : Option (List String → Option String))
    (args : List String) (t : String) (regs : List String)
    (h : validCurrentCmdLine argsFn args t = some true) :
    AutocompleteRegistries argsFn args t (.ok regs)
      = some (regs, ShellCompDirectiveNoFileComp) := by
  unfold AutocompleteRegistries
  rw [h]
  rfl

/-- **C7** witness: the amended registries claim at a concrete input. -/
theorem autocompleteRegistries_unfiltered_witness :
    AutocompleteRegistries none [] "ab" (.ok ["quay.io"])
      = some (["quay.io"], ShellCompDirectiveNoFileComp) :=
  autocompleteRegistries_unfiltered none [] "ab" ["quay.io"] rfl

/-- **C10**. `AutocompleteUserNamespace` returns exactly the result of
`AutocompleteNamespace` with the two literals "auto" and "keep-id"
appended unconditionally — without prefix-filtering against the partial
token, for every token including ones taken by the delegation branch —
and the directive is the one `AutocompleteNamespace` returned. -/
theorem userNamespace_appends_literals (q : Except String (List Container))
    (t : String) (l : List String) (d : Nat)
    (h : AutocompleteNamespace q t = some (l, d)) :
    AutocompleteUserNamespace q t = some (l ++ ["auto", "keep-id"], d) := by
  unfold AutocompleteUserNamespace
  rw [h]
  rfl

/-- **C10** witness: a delegation-branch token ("container:a" starts with
the grammar key "container:"); the literals are still appended and are not
prefix-filtered against the token. -/
theorem userNamespace_appends_literals_witness :
    AutocompleteUserNamespace (.ok []) "container:a"
      = some (["auto", "keep-id"], ShellCompDirectiveNoFileComp) :=
  userNamespace_appends_literals (.ok []) "container:a" [] ShellCompDirectiveNoFileComp
    (by decide)

/-- With an empty partial token and non-empty keys, the combinator loop
appends every key to the accumulator and raises the directive to
`NoSpace ||| NoFileComp` exactly when some key ends in `=` or `:`. -/
theorem kvLoop_empty_tok (k : List (String × Option KVComp)) (acc : List String) (d : Nat)
    (h : ∀ p ∈ k, p.1 ≠ "") :
    completeKeyValuesLoop "" k acc d =
      some (acc ++ k.map Prod.fst,
        if k.any (fun p => keyEndsInSep p.1) then
          ShellCompDirectiveNoSpace ||| ShellCompDirectiveNoFileComp
        else d) := by
  induction k generalizing acc d with
  | nil => simp [completeKeyValuesLoop]
  | cons hd tl ih =>
    obtain ⟨key, g⟩ := hd
    have hkey : key ≠ "" := h (key, g) (List.mem_cons_self _ _)
    have h1 : goHasPref "" key = false := goHasPref_empty_of_ne key hkey
    have h2 : goHasPref key "" = true := goHasPref_emptyTok key
    simp only [completeKeyValuesLoop, h1, h2, Bool.false_eq_true, if_false, if_true]
    rw [ih _ _ (fun p hp => h p (List.mem_cons_of_mem _ hp))]
    rcases hks : keyEndsInSep key with _ | _ <;>
      rcases hta : tl.any (fun p => keyEndsInSep p.1) with _ | _ <;>
        simp [hks, hta, List.any_cons]

/-- **C2**. For a key-value grammar with non-empty keys,
`completeKeyValues` with the empty partial token returns exactly the
declared keys (one suggestion per key, in grammar order), the
`NoAppendSpace` bit of the directive is set iff some key ends in `=` or
`:`, and the `NoFileCompletion` bit is set in either case. -/
theorem completeKeyValues_empty_token_spec (k : List (String × Option KVComp))
    (h : ∀ p ∈ k, p.1 ≠ "") :
    completeKeyValues "" k =
      some (k.map Prod.fst,
        if k.any (fun p => keyEndsInSep p.1) then
          ShellCompDirectiveNoSpace ||| ShellCompDirectiveNoFileComp
        else ShellCompDirectiveNoFileComp) ∧
    ((if k.any (fun p => keyEndsInSep p.1) then
          ShellCompDirectiveNoSpace ||| ShellCompDirectiveNoFileComp
        else ShellCompDirectiveNoFileComp).testBit 1 ↔ ∃ p ∈ k, keyEndsInSep p.1) ∧
    (if k.any (fun p => keyEndsInSep p.1) then
        ShellCompDirectiveNoSpace ||| ShellCompDirectiveNoFileComp
      else ShellCompDirectiveNoFileComp).testBit 2 = true := by
  refine ⟨?_, ?_, ?_⟩
  · rw [completeKeyValues, kvLoop_empty_tok k [] ShellCompDirectiveNoFileComp h,
      List.nil_append]
  · rcases hany : k.any (fun p => keyEndsInSep p.1) with _ | _
    · rw [if_neg (by decide : ¬ (false = true))]
      have hall := List.any_eq_false.mp hany
      constructor
      · intro hbit
        exact absurd hbit (by decide)
      · rintro ⟨p, hp, hsep⟩
        exact absurd hsep (by simpa using hall p hp)
    · rw [if_pos rfl]
      constructor
      · intro _
        obtain ⟨p, hp, hsep⟩ := List.any_eq_true.mp hany
        exact ⟨p, hp, hsep⟩
      · intro _
        decide
  · rcases hany : k.any (fun p => keyEndsInSep p.1) with _ | _
    · rw [if_neg (by decide : ¬ (false = true))]; decide
    · rw [if_pos rfl]; decide

/-- A concrete grammar for the C2 witness. -/
def kGrammarC2 : List (String × Option KVComp) :=
  [("label=", none), ("host", none)]

/-- **C2** witness: the empty-token claim at a concrete grammar whose
first key ends in `=`. -/
theorem completeKeyValues_empty_token_spec_witness :
    completeKeyValues "" kGrammarC2 =
      some (kGrammarC2.map Prod.fst,
        if kGrammarC2.any (fun p => keyEndsInSep p.1) then
          ShellCompDirectiveNoSpace ||| ShellCompDirectiveNoFileComp
        else ShellCompDirectiveNoFileComp) ∧
    completeKeyValues "" kGrammarC2 = some (["label=", "host"], 6) := by
  have hmain := completeKeyValues_empty_token_spec kGrammarC2 (by decide)
  refine ⟨hmain.1, ?_⟩
  rw [hmain.1]
  decide

/-- When the delegation branch cannot fire on a run of leading entries,
the combinator loop skips them (possibly accumulating literal-key
suggestions that the later delegation discards). -/
theorem kvLoop_skip (t : String) (rest : List (String × Option KVComp))
    (R : Option (List String × Nat))
    (hrest : ∀ acc d, completeKeyValuesLoop t rest acc d = R) :
    ∀ (k₁ : List (String × Option KVComp)) (acc : List String) (d : Nat),
      (∀ p ∈ k₁, goHasPref t p.1 = false) →
      completeKeyValuesLoop t (k₁ ++ rest) acc d = R := by
  intro k₁
  induction k₁ with
  | nil => intro acc d _; simpa using hrest acc d
  | cons hd tl ih =>
    intro acc d h
    obtain ⟨key, g⟩ := hd
    have h1 : goHasPref t key = false := h (key, g) (List.mem_cons_self _ _)
    rw [List.cons_append]
    simp only [completeKeyValuesLoop, h1, Bool.false_eq_true, if_false]
    have htl : ∀ p ∈ tl, goHasPref t p.1 = false :=
      fun p hp => h p (List.mem_cons_of_mem _ hp)
    split
    · exact ih _ _ htl
    · exact ih _ _ htl

/-- **C5**. Delegation round-trip: when the partial token begins with the
first matching grammar key `key` and that key has a nested completer `f`,
`completeKeyValues` returns exactly the suggestions of `f` on the token
with `key` stripped, each re-prefixed with `key`, with the directive of
`f` unchanged; stripping the leading `key` from each returned suggestion
recovers the output of `f` unmodified. -/
theorem completeKeyValues_delegation_roundtrip (t key : String) (f : KVComp)
    (k₁ k₂ : List (String × Option KVComp)) (l : List String) (d : Nat)
    (h1 : ∀ p ∈ k₁, goHasPref t p.1 = false)
    (h2 : goHasPref t key = true)
    (h3 : f (goDropStr t key) = some (l, d)) :
    completeKeyValues t (k₁ ++ (key, some f) :: k₂) = some (prefixSlice key l, d) ∧
    (prefixSlice key l).map (fun s => goDropStr s key) = l := by
  constructor
  · rw [completeKeyValues]
    refine kvLoop_skip t _ _ ?_ k₁ [] ShellCompDirectiveNoFileComp h1
    intro acc d'
    simp only [completeKeyValuesLoop, h2, if_true, h3]
    rfl
  · rw [prefixSlice, List.map_map]
    have hcomp : ((fun s => goDropStr s key) ∘ fun s => key ++ s) = id := by
      funext s
      simp [Function.comp, goDropStr_append]
    rw [hcomp, List.map_id]

/-- A concrete nested completer for the C5 witness. -/
def fStatusC5 : KVComp :=
  fun _ => some (["running", "paused"], ShellCompDirectiveNoFileComp)

/-- **C5** witness: delegation at the concrete grammar
`{"status=": fStatusC5}` with token "status=". -/
theorem completeKeyValues_delegation_roundtrip_witness :
    completeKeyValues "status=" [("status=", some fStatusC5)]
        = some (prefixSlice "status=" ["running", "paused"],
            ShellCompDirectiveNoFileComp) ∧
    (prefixSlice "status=" ["running", "paused"]).map (fun s => goDropStr s "status=")
        = ["running", "paused"] := by
  have hmain := completeKeyValues_delegation_roundtrip "status=" "status=" fStatusC5
    [] [] ["running", "paused"] ShellCompDirectiveNoFileComp
    (by intro p hp; cases hp) (by decide) rfl
  simpa using hmain

/-- **C8**. Backend-failure error handling: every entity query adapter on
a failed external query returns the empty suggestion list with exactly the
`Error` directive (never combined with another flag, never paired with
non-empty suggestions); on a successful query, whenever the adapter
returns at all, the directive is `NoFileCompletion`. -/
theorem adapters_error_directive_spec (e t : String) (ct : CompleteType)
    (cs : List Container) (ps : List Pod) (ims : List Image)
    (vols nets regs : List String) :
    getContainers (.error e) t ct = some ([], ShellCompDirectiveError) ∧
    getPods (.error e) t ct = some ([], ShellCompDirectiveError) ∧
    getImages (.error e) t = some ([], ShellCompDirectiveError) ∧
    getVolumes (.error e) t = ([], ShellCompDirectiveError) ∧
    getNetworks (.error e) t = ([], ShellCompDirectiveError) ∧
    getRegistries (.error e) = ([], ShellCompDirectiveError) ∧
    (getContainers (.ok cs) t ct = none ∨
      ∃ s, getContainers (.ok cs) t ct = some (s, ShellCompDirectiveNoFileComp)) ∧
    (getPods (.ok ps) t ct = none ∨
      ∃ s, getPods (.ok ps) t ct = some (s, ShellCompDirectiveNoFileComp)) ∧
    (getImages (.ok ims) t = none ∨
      ∃ s, getImages (.ok ims) t = some (s, ShellCompDirectiveNoFileComp)) ∧
    (getVolumes (.ok vols) t).2 = ShellCompDirectiveNoFileComp ∧
    (getNetworks (.ok nets) t).2 = ShellCompDirectiveNoFileComp ∧
    (getRegistries (.ok regs)).2 = ShellCompDirectiveNoFileComp := by
  refine ⟨rfl, rfl, rfl, rfl, rfl, rfl, ?_, ?_, ?_, rfl, rfl, rfl⟩
  · cases hm : cs.mapM (getContainersOne t ct) with
    | none =>
      left
      show (cs.mapM (getContainersOne t ct)).map
        (fun ls => (ls.flatten, ShellCompDirectiveNoFileComp)) = none
      rw [hm]; rfl
    | some ls =>
      right
      refine ⟨ls.flatten, ?_⟩
      show (cs.mapM (getContainersOne t ct)).map
        (fun ls => (ls.flatten, ShellCompDirectiveNoFileComp)) = _
      rw [hm]; rfl
  · cases hm : ps.mapM (getPodsOne t ct) with
    | none =>
      left
      show (ps.mapM (getPodsOne t ct)).map
        (fun ls => (ls.flatten, ShellCompDirectiveNoFileComp)) = none
      rw [hm]; rfl
    | some ls =>
      right
      refine ⟨ls.flatten, ?_⟩
      show (ps.mapM (getPodsOne t ct)).map
        (fun ls => (ls.flatten, ShellCompDirectiveNoFileComp)) = _
      rw [hm]; rfl
  · cases hm : ims.mapM (getImagesOne t) with
    | none =>
      left
      show (ims.mapM (getImagesOne t)).map
        (fun ls => (ls.flatten, ShellCompDirectiveNoFileComp)) = none
      rw [hm]; rfl
    | some ls =>
      right
      refine ⟨ls.flatten, ?_⟩
      show (ims.mapM (getImagesOne t)).map
        (fun ls => (ls.flatten, ShellCompDirectiveNoFileComp)) = _
      rw [hm]; rfl

/-- **C9**. The adapters take `ID[0:12]` of every record whose ID
prefix-matches under the ID-branch condition; whenever such a matching
record has an ID shorter than 12 characters, the adapter panics (`none`)
instead of returning a `(suggestions, directive)` pair. -/
theorem id_slice_panic_spec (t : String) (ct : CompleteType)
    (cs : List Container) (ps : List Pod) (ims : List Image) :
    ((∃ c ∈ cs, (((t.data.length > 1 ∧ ct = CompleteType.default) ∨ ct = CompleteType.ids) ∧
        goHasPref c.id t ∧ c.id.data.length < 12)) →
      getContainers (.ok cs) t ct = none) ∧
    ((∃ p ∈ ps, (((t.data.length > 1 ∧ ct = CompleteType.default) ∨ ct = CompleteType.ids) ∧
        goHasPref p.id t ∧ p.id.data.length < 12)) →
      getPods (.ok ps) t ct = none) ∧
    ((∃ im ∈ ims, (t.data.length > 1 ∧ goHasPref im.id t ∧ im.id.data.length < 12)) →
      getImages (.ok ims) t = none) := by
  refine ⟨?_, ?_, ?_⟩
  · rintro ⟨c, hmem, hcond, hpref, hlen⟩
    have hone : getContainersOne t ct c = none := by
      unfold getContainersOne
      rw [if_pos ⟨hcond, hpref⟩, if_pos hlen]
      rfl
    show (cs.mapM (getContainersOne t ct)).map
      (fun ls => (ls.flatten, ShellCompDirectiveNoFileComp)) = none
    rw [mapM_eq_none_of_mem hmem hone]
    rfl
  · rintro ⟨p, hmem, hcond, hpref, hlen⟩
    have hone : getPodsOne t ct p = none := by
      unfold getPodsOne
      rw [if_pos ⟨hcond, hpref⟩, if_pos hlen]
      rfl
    show (ps.mapM (getPodsOne t ct)).map
      (fun ls => (ls.flatten, ShellCompDirectiveNoFileComp)) = none
    rw [mapM_eq_none_of_mem hmem hone]
    rfl
  · rintro ⟨im, hmem, hcond, hpref, hlen⟩
    have hone : getImagesOne t im = none := by
      unfold getImagesOne
      rw [if_pos ⟨hcond, hpref⟩, if_pos hlen]
      rfl
    show (ims.mapM (getImagesOne t)).map
      (fun ls => (ls.flatten, ShellCompDirectiveNoFileComp)) = none
    rw [mapM_eq_none_of_mem hmem hone]
    rfl

/-- **C9** witness: a matching 5-character ID makes each adapter panic
(`none`) at a concrete input with a 2-character partial token. -/
theorem id_slice_panic_spec_witness :
    getContainers (.ok [⟨"abc12", ["web"], "p1"⟩]) "ab" CompleteType.default = none ∧
    getPods (.ok [⟨"abc12", "pod1"⟩]) "ab" CompleteType.default = none ∧
    getImages (.ok [⟨"abc12", ["repo/app:latest"]⟩]) "ab" = none :=
  ⟨(id_slice_panic_spec "ab" CompleteType.default [⟨"abc12", ["web"], "p1"⟩] [] []).1
      (by decide),
   (id_slice_panic_spec "ab" CompleteType.default [] [⟨"abc12", "pod1"⟩] []).2.1
      (by decide),
   (id_slice_panic_spec "ab" CompleteType.default [] [] [⟨"abc12", ["repo/app:latest"]⟩]).2.2
      (by decide)⟩

/-- With a short token, the per-container suggestion function in
`Default` mode coincides with `NamesOnly` mode: the ID branch is dead. -/
theorem containersOne_default_eq_names (t : String) (h : t.data.length ≤ 1)
    (c : Container) :
    getContainersOne t CompleteType.default c = getContainersOne t CompleteType.names c := by
  have h1 : ¬ (t.data.length > 1) := by omega
  have h2 : ¬ (1 < t.length) := by simpa using h1
  simp [getContainersOne, h1, h2]

/-- With a short token, the per-pod suggestion function in `Default` mode
coincides with `NamesOnly` mode. -/
theorem podsOne_default_eq_names (t : String) (h : t.data.length ≤ 1) (p : Pod) :
    getPodsOne t CompleteType.default p = getPodsOne t CompleteType.names p := by
  have h1 : ¬ (t.data.length > 1) := by omega
  have h2 : ¬ (1 < t.length) := by simpa using h1
  simp [getPodsOne, h1, h2]

/-- With a short token, the per-image suggestion function yields only the
repo-tag-derived suggestions: the ID branch is dead. -/
theorem imagesOne_short_tok (t : String) (h1 : ¬ (t.data.length > 1)) (im : Image) :
    getImagesOne t im = some (im.repoTags.flatMap (goRepoSuggestions t)) := by
  unfold getImagesOne
  rw [if_neg (fun hc => h1 hc.1)]
  rfl

/-- **C4**. For every partial token of length at most 1 in `Default`
completion mode, `getContainers` and `getPods` behave exactly as in
`NamesOnly` mode (so no ID-based suggestion is produced, only name-prefix
matches), and `getImages` returns exactly the repo-tag-derived
suggestions (no ID suggestion). -/
theorem short_token_no_id_suggestions (t : String)
    (q : Except String (List Container)) (qp : Except String (List Pod))
    (ims : List Image) (h : t.data.length ≤ 1) :
    getContainers q t CompleteType.default = getContainers q t CompleteType.names ∧
    getPods qp t CompleteType.default = getPods qp t CompleteType.names ∧
    getImages (.ok ims) t
      = some (ims.flatMap (fun im => im.repoTags.flatMap (goRepoSuggestions t)),
          ShellCompDirectiveNoFileComp) := by
  refine ⟨?_, ?_, ?_⟩
  · cases q with
    | error e => rfl
    | ok cs =>
      show (cs.mapM (getContainersOne t CompleteType.default)).map
          (fun ls => (ls.flatten, ShellCompDirectiveNoFileComp))
        = (cs.mapM (getContainersOne t CompleteType.names)).map
          (fun ls => (ls.flatten, ShellCompDirectiveNoFileComp))
      rw [mapM_congr (fun c _ => containersOne_default_eq_names t h c)]
  · cases qp with
    | error e => rfl
    | ok ps =>
      show (ps.mapM (getPodsOne t CompleteType.default)).map
          (fun ls => (ls.flatten, ShellCompDirectiveNoFileComp))
        = (ps.mapM (getPodsOne t CompleteType.names)).map
          (fun ls => (ls.flatten, ShellCompDirectiveNoFileComp))
      rw [mapM_congr (fun p _ => podsOne_default_eq_names t h p)]
  · show (ims.mapM (getImagesOne t)).map
        (fun ls => (ls.flatten, ShellCompDirectiveNoFileComp)) = _
    rw [mapM_congr (fun im _ => imagesOne_short_tok t (by omega) im), mapM_some]
    show some ((ims.map (fun im => im.repoTags.flatMap (goRepoSuggestions t))).flatten,
      ShellCompDirectiveNoFileComp) = _
    rw [← List.flatMap_def]

/-- **C4** witness: the short-token claim at a one-character token and
concrete records carrying 12-character IDs. -/
theorem short_token_no_id_suggestions_witness :
    getContainers (.ok [⟨"abcdef123456", ["apple"], "p"⟩]) "a" CompleteType.default
      = getContainers (.ok [⟨"abcdef123456", ["apple"], "p"⟩]) "a" CompleteType.names ∧
    getPods (.ok [⟨"abcdef123456", "anchor"⟩]) "a" CompleteType.default
      = getPods (.ok [⟨"abcdef123456", "anchor"⟩]) "a" CompleteType.names ∧
    getImages (.ok [⟨"abcdef123456", ["repo/app:latest"]⟩]) "a"
      = some (([⟨"abcdef123456", ["repo/app:latest"]⟩] : List Image).flatMap
          (fun im => im.repoTags.flatMap (goRepoSuggestions "a")),
          ShellCompDirectiveNoFileComp) :=
  short_token_no_id_suggestions "a" (.ok [⟨"abcdef123456", ["apple"], "p"⟩])
    (.ok [⟨"abcdef123456", "anchor"⟩]) [⟨"abcdef123456", ["repo/app:latest"]⟩] (by decide)

/-- The spec-side suffix enumeration coincides with the drop-indexed
enumeration of the source loop. -/
theorem specSuffixes_eq {α : Type} (l : List α) :
    specSuffixes l = (List.range l.length).map (fun i => l.drop i) := by
  induction l with
  | nil => rfl
  | cons x xs ih =>
    rw [specSuffixes, ih, List.length_cons, List.range_succ_eq_map, List.map_cons,
      List.map_map]
    congr 1

/-- Stripping at the first `:` and then at the first `@` equals the
single-pass spec-side strip before the first `:` or `@`. -/
theorem untilChar_comp (l : List Char) :
    untilChar '@' (untilChar ':' l) = specStripTag l := by
  induction l with
  | nil => rfl
  | cons x xs ih =>
    by_cases h1 : x = ':'
    · subst h1; rfl
    · by_cases h2 : x = '@'
      · subst h2
        simp [untilChar, specStripTag]
      · simp only [untilChar, specStripTag, List.takeWhile_cons] at *
        simp [h1, h2, ih]

/-- **C3**. Image tag completion, per repo tag string: for every
non-empty partial token, the suggestions derived from a repo tag string
are exactly, for each suffix of its slash-split segment list, the
suffix-joined string and that string with the trailing tag or digest
component stripped, each included iff the partial token is a prefix of
it (`specRepoSuggestions` is the spec-side description); with the empty
partial token, the only suggestion from that repo tag is the unmodified
full repository reference. -/
theorem repoSuggestions_spec (repo t : String) :
    (t ≠ "" → goRepoSuggestions t repo = specRepoSuggestions t repo) ∧
    goRepoSuggestions "" repo = [repo] := by
  constructor
  · intro ht
    unfold goRepoSuggestions specRepoSuggestions
    rw [if_neg ht, specSuffixes_eq, List.flatMap_map]
    refine congrArg (List.flatMap (List.range (goSplit '/' repo.data).length))
      (funext fun i => ?_)
    simp only [untilChar_comp]
  · unfold goRepoSuggestions
    rw [if_pos rfl, if_pos (goHasPref_emptyTok repo)]

/-- **C3** witness: the per-repo claim at the concrete record of the
specification example. -/
theorem repoSuggestions_spec_witness :
    goRepoSuggestions "app" "registry.example.org/group/app:latest"
      = specRepoSuggestions "app" "registry.example.org/group/app:latest" ∧
    goRepoSuggestions "" "registry.example.org/group/app:latest"
      = ["registry.example.org/group/app:latest"] :=
  ⟨(repoSuggestions_spec "registry.example.org/group/app:latest" "app").1 (by decide),
   (repoSuggestions_spec "registry.example.org/group/app:latest" "app").2⟩

end PodmanCompletion
